import Mathlib

/-!
Shallow embedding of the enhanced-vector-RAG retrieval pipeline
(`src/mastra/tools/enhanced-vector-rag-tool.ts`), the web-result storage
side channel (`src/mastra/tools/store-web-results-tool.ts`) and the
ingestion-time entity extractor (`extractSimpleEntities` in the file-upload
tool).

Modelling conventions, matching the TypeScript source:
* JavaScript numbers that carry similarity scores are modelled as `ℚ`
  (no score in the repository ever goes through a float-specific code path
  relevant to the claims); where the source tolerates a *missing* score
  (`result.score || 0`), the model uses `Option ℚ` with `Option.getD 0`.
* Stateful and effectful code is modelled by explicit environment records whose
  fields are the results of the external calls (embedding service, vector
  store, MCP web-search tool); a call that can throw is an `Except String`
  value.  `try`/`catch` becomes a `match` on that value.
* JavaScript strings are Lean `String`s; `text.length` is the character
  count (identical on the ASCII data all claims use), `substring (0, k)` is
  `List.take k` on the character data, `toLowerCase` is per-character ASCII
  lowering, `split(/\s+/)` splits at each whitespace character (the two
  differ only in empty tokens, which every consumer filters out).
-/

namespace RagPipeline

/-- Membership in `[a-zA-Z]` — the character class of the `/^[a-zA-Z]+$/` entity filter. -/
def isAsciiLetter (c : Char) : Bool :=
  ('a' ≤ c && c ≤ 'z') || ('A' ≤ c && c ≤ 'Z')

/-- JavaScript `\w` word characters `[A-Za-z0-9_]`, used by the `\b`
word-boundary assertions of `rerankByEntityOverlap`. -/
def isWordChar (c : Char) : Bool :=
  isAsciiLetter c || c.isDigit || c = '_'

/-- Split a string at every whitespace character (model of
`split(/\s+/)`; a run of whitespace yields extra empty tokens, which every
call site drops via its `length > 3` filter). -/
def splitWsAux : List Char → List Char → List String
  | [], acc => [String.mk acc.reverse]
  | c :: cs, acc =>
    if c.isWhitespace then String.mk acc.reverse :: splitWsAux cs []
    else splitWsAux cs (c :: acc)

def splitWs (s : String) : List String :=
  splitWsAux s.data []

/-- Keep the first occurrence of every string, in order — the observable
behaviour of inserting into a JavaScript `Set` and reading it back with
`Array.from`, and of the `!entities.includes(word)` push guard. -/
def firstSeenGo (seen : List String) : List String → List String
  | [] => []
  | s :: rest =>
    if s ∈ seen then firstSeenGo seen rest
    else s :: firstSeenGo (s :: seen) rest

def firstSeen (l : List String) : List String :=
  firstSeenGo [] l

/-- Lower-case a string character-wise (ASCII case mapping, the fragment of
`String.prototype.toLowerCase` exercised by the repository's data). -/
def lowerStr (s : String) : String :=
  String.mk (s.data.map Char.toLower)

/-! ## Data model

`Meta` models the open `metadata` mapping on a retrieval hit, restricted to
the keys the pipeline reads or writes (`text`, `entities`, `entitySearch`,
`entity`, `entityScore`, `boostedScore`); an absent key is `none`. -/

structure Meta where
  text : Option String := none
  entities : Option (List String) := none
  entitySearch : Option Bool := none
  entity : Option String := none
  entityScore : Option ℚ := none
  boostedScore : Option ℚ := none
deriving DecidableEq, Repr

/-- A retrieval hit as used throughout the pipeline: `id`, similarity
`score`, and `metadata`. -/
structure Candidate where
  id : String
  score : ℚ
  metadata : Meta := {}
deriving DecidableEq, Repr

/-- A hit as seen by the sufficiency check, where the source guards against
a missing `score` field with `result.score || 0`. -/
structure ScoredHit where
  score : Option ℚ := none
deriving DecidableEq, Repr

/-- A normalized web-search result.  The pipeline only threads these
through to `webSearchResults`; their fields are not inspected by any claim,
so a single payload field suffices for identity. -/
structure WebResult where
  title : String := ""
  url : String := ""
  snippet : String := ""
  content : Option String := none
deriving DecidableEq, Repr

/-- The `metadata` object of a formatted source:
`{...result.metadata, score, id, retrievalMethod}` on the normal path,
`{error: message}` on the error path. -/
structure SourceMeta where
  base : Meta := {}
  score : Option ℚ := none
  id : Option String := none
  retrievalMethod : Option String := none
  error : Option String := none
deriving DecidableEq, Repr

/-- One entry of the `sources` array of the tool's output. -/
structure Source where
  id : String
  score : ℚ
  document : String
  metadata : SourceMeta
deriving DecidableEq, Repr

/-- One entry of the `entityPath` array. -/
structure PathEntry where
  nodeId : String
  relationship : String
  score : ℚ
  text : String
deriving DecidableEq, Repr

/-- The tool's output object.  `webSearchResults` is an optional field of
the output schema; `none` models the field being `undefined`/absent. -/
structure RetrievalResult where
  relevantContext : String
  sources : List Source
  entityPath : List PathEntry
  entities : List String
  webSearchUsed : Bool
  webSearchResults : Option (List WebResult)
deriving DecidableEq, Repr

/-! ## Sufficiency gate (lines 55–58) -/

/-- Model of `initialResults && initialResults.length > 0 &&
initialResults.some(r => (r.score || 0) > 0.7)`, on hits whose `score`
field may be absent. -/
def hasSufficientLocalResults (l : List ScoredHit) : Bool :=
  decide (0 < l.length) && l.any (fun r => decide ((r.score.getD 0) > (0.7 : ℚ)))

/-- The same check as it runs inside the pipeline, where every candidate
delivered by the vector store carries a numeric score (for `q : ℚ`,
`q || 0` is the identity: JavaScript only replaces the falsy `0` by `0`). -/
def hasSuffLocal (l : List Candidate) : Bool :=
  decide (0 < l.length) && l.any (fun r => decide (r.score > (0.7 : ℚ)))

/-! ## Entity extraction (query time, lines 267–287) -/

/-- Model of `word.length > 3 && /^[a-zA-Z]+$/.test(word)`. -/
def tokenOk (w : String) : Bool :=
  decide (3 < w.length) && w.data.all isAsciiLetter

/-- The tokens of `query.toLowerCase().split(/\s+/)` that pass the length
and letters filter. -/
def queryTokens (q : String) : List String :=
  (splitWs (lowerStr q)).filter tokenOk

/-- Model of `extractEntities(query, results)`: query tokens first, then any
`entities` arrays found on result metadata, deduplicated in insertion
order (the `Set`). -/
def extractEntities (query : String) (results : List Candidate) : List String :=
  firstSeen (queryTokens query ++ results.flatMap (fun r => r.metadata.entities.getD []))

/-! ## Ingestion-time entity extraction
(`extractSimpleEntities`, file-upload tool lines 159–179) -/

/-- The ingestion-time stop-word list (`commonWords` of
`extractSimpleEntities`), verbatim, duplicates included. -/
def ingestCommonWords : List String :=
  ["the", "and", "with", "that", "this", "have", "from", "they", "will",
   "would", "there", "their", "what", "said", "each", "which", "she", "do",
   "how", "her", "if", "will", "up", "one", "about", "many", "then", "them",
   "these", "so", "some", "her", "would", "make", "like", "into", "him",
   "time", "two", "more", "go", "no", "way", "could", "my", "than", "first",
   "been", "call", "who", "its", "now", "find", "long", "down", "day",
   "did", "get", "come", "made", "may", "part"]

/-- Model of `extractSimpleEntities(text)`: filtered tokens, minus stop words, first
occurrence wins, capped at 10. -/
def extractSimpleEntities (text : String) : List String :=
  (firstSeen (((splitWs (lowerStr text)).filter tokenOk).filter
    (fun w => decide (w ∉ ingestCommonWords)))).take 10

/-! ## Entity-expansion search (`performEntitySearch`, lines 290–340) -/

/-- The query-time stop-word list (`commonWords` inside
`performEntitySearch`). -/
def entitySearchCommonWords : List String :=
  ["the", "and", "or", "but", "in", "on", "at", "to", "for", "of", "with", "by"]

/-- The per-hit transformation applied to a novel high-scoring entity hit:
dampen the score by 0.7 and tag the metadata. -/
def entityHitTransform (entity : String) (r : Candidate) : Candidate :=
  { r with
    score := r.score * (0.7 : ℚ),
    metadata := { r.metadata with entitySearch := some true, entity := some entity } }

/-- Keep a hit iff its id is absent from the initial results and its raw
score exceeds 0.7 (`!initialResults.find(...) && result.score > 0.7`). -/
def entityHitKeep (initial : List Candidate) (r : Candidate) : Bool :=
  initial.all (fun i => i.id ≠ r.id) && decide (r.score > (0.7 : ℚ))

/-- The entity loop.  `entityCall e k` is the embed-plus-vector-query round
trip for entity `e` with `topK = k`; an `error` models a thrown exception,
which the surrounding `try`/`catch` turns into "return what was
accumulated so far" (all later entities are skipped). -/
def entitySearchGo (initial : List Candidate) (depth : Nat)
    (entityCall : String → Nat → Except String (List Candidate)) :
    List String → List Candidate → List Candidate
  | [], acc => acc
  | e :: rest, acc =>
    if lowerStr e ∈ entitySearchCommonWords then
      entitySearchGo initial depth entityCall rest acc
    else
      match entityCall e (min 5 (depth * 2)) with
      | .error _ => acc
      | .ok hits =>
        entitySearchGo initial depth entityCall rest
          (acc ++ (hits.filter (entityHitKeep initial)).map (entityHitTransform e))

/-- Model of `performEntitySearch(entities, initialResults, depth, vectorStore)`. -/
def performEntitySearch (entities : List String) (initial : List Candidate)
    (depth : Nat)
    (entityCall : String → Nat → Except String (List Candidate)) :
    List Candidate :=
  entitySearchGo initial depth entityCall (entities.take 3) []

/-! ## Entity-overlap reranking (`rerankByEntityOverlap`, lines 343–372) -/

/-- A word boundary holds against an adjacent character that is absent or
not a word character. -/
def boundaryOk : Option Char → Bool
  | none => true
  | some c => !isWordChar c

/-- Does `pat` match at the head of `txt` with `\b` satisfied on both
sides?  `prev` is the character just before the current position. -/
def occAt (pat txt : List Char) (prev : Option Char) : Bool :=
  pat.isPrefixOf txt && boundaryOk prev && boundaryOk (txt.drop pat.length).head?

def countOccsGo (pat : List Char) : List Char → Option Char → Nat
  | [], prev => if occAt pat [] prev then 1 else 0
  | c :: cs, prev =>
    (if occAt pat (c :: cs) prev then 1 else 0) + countOccsGo pat cs (some c)

/-- Number of whole-word occurrences of `pat` in `txt`
(`text.match(new RegExp(`\b‹entity›\b`, 'gi')).length`; for the non-empty
all-letter entities this system produces, successive `g`-mode matches of a
word-boundary-delimited literal cannot overlap, so the global match count
equals the count of boundary-valid positions). -/
def countOccs (pat txt : List Char) : Nat :=
  countOccsGo pat txt none

/-- The `entityScore`: total occurrence count of all entities in the
candidate's lower-cased text (`result.metadata?.text?.toLowerCase() || ""`;
the `'i'` flag is modelled by lowering the entity as well). -/
def entityOccTotal (entities : List String) (c : Candidate) : Nat :=
  (entities.map (fun e =>
    countOccs (lowerStr e).data (lowerStr (c.metadata.text.getD "")).data)).sum

/-- The mapping step of the reranker: boost the score by
`entityScore * 0.1` and record `entityScore` and `boostedScore` on the
metadata. -/
def boostCand (entities : List String) (c : Candidate) : Candidate :=
  { c with
    score := c.score + (entityOccTotal entities c : ℚ) * (0.1 : ℚ),
    metadata := { c.metadata with
      entityScore := some (entityOccTotal entities c : ℚ),
      boostedScore := some (c.score + (entityOccTotal entities c : ℚ) * (0.1 : ℚ)) } }

/-- Stable insertion into a descending-sorted list: the inserted element
goes before the first element whose score it reaches, hence before later
elements with an equal score. -/
def insertDesc (c : Candidate) : List Candidate → List Candidate
  | [] => [c]
  | d :: ds => if c.score ≥ d.score then c :: d :: ds else d :: insertDesc c ds

/-- Stable descending sort by `score` — the unique result of the stable
ECMAScript `Array.prototype.sort` under the comparator
`(b.score || 0) - (a.score || 0)` (scores here are always numeric). -/
def sortDesc : List Candidate → List Candidate
  | [] => []
  | c :: cs => insertDesc c (sortDesc cs)

/-- Model of `rerankByEntityOverlap(results, entities)`. -/
def rerankByEntityOverlap (results : List Candidate) (entities : List String) :
    List Candidate :=
  if entities.isEmpty then results
  else sortDesc (results.map (boostCand entities))

/-! ## Deduplication (lines 181–187) -/

/-- The `seenIds` filter: keep a candidate iff its id was not seen before. -/
def dedupeGo (seen : List String) : List Candidate → List Candidate
  | [] => []
  | c :: cs =>
    if c.id ∈ seen then dedupeGo seen cs
    else c :: dedupeGo (c.id :: seen) cs

/-- Model of `uniqueResults = rerankedResults.filter(...)` with the `seenIds` set. -/
def uniqueResults (l : List Candidate) : List Candidate :=
  dedupeGo [] l

/-! ## Context assembly (lines 189–223) -/

/-- The loop state: the accumulated string, the running length counter
(which counts only candidate text, not separators — exactly as the source
does), and the accepted-result counter.  `fragments` is a ghost observer
counting how many candidates had text (possibly truncated) appended; it is
not a source variable and influences nothing. -/
structure AsmState where
  relevantTexts : String := ""
  currentLength : Nat := 0
  addedCount : Nat := 0
  fragments : Nat := 0
deriving Repr

/-- Model of `String.prototype.includes`: `pat` occurs contiguously in `txt`. -/
def containsSub (pat : List Char) : List Char → Bool
  | [] => pat.isPrefixOf []
  | c :: cs => pat.isPrefixOf (c :: cs) || containsSub pat cs

/-- Does the candidate's lower-cased text contain some entity
(`entities.some(e => textLower.includes(e.toLowerCase()))`)? -/
def hasRelevantContent (entities : List String) (textLower : String) : Bool :=
  entities.any (fun e => containsSub (lowerStr e).data textLower.data)

/-- One pass of the `for (const result of uniqueResults)` loop, with both
`break`s and both `continue`s. -/
def assembleGo (entities : List String) : List Candidate → AsmState → AsmState
  | [], s => s
  | r :: rest, s =>
    if s.addedCount ≥ 15 then s
    else
      match r.metadata.text with
      | none => assembleGo entities rest s
      | some text =>
        if text = "" then assembleGo entities rest s
        else if text.length < 50 then assembleGo entities rest s
        else if !hasRelevantContent entities (lowerStr text) then
          assembleGo entities rest s
        else if s.currentLength + text.length > 6000 then
          let remaining := 6000 - s.currentLength
          if remaining > 200 then
            { s with
              relevantTexts :=
                s.relevantTexts ++ "\n\n" ++ String.mk (text.data.take (remaining - 200)) ++ "...",
              fragments := s.fragments + 1 }
          else s
        else
          assembleGo entities rest
            { relevantTexts :=
                s.relevantTexts ++ (if s.relevantTexts = "" then "" else "\n\n") ++ text,
              currentLength := s.currentLength + text.length,
              addedCount := s.addedCount + 1,
              fragments := s.fragments + 1 }

/-- The full assembly pass over the deduplicated candidates. -/
def assembleRun (cands : List Candidate) (entities : List String) : AsmState :=
  assembleGo entities cands {}

/-- The `relevantTexts` string as the pipeline reads it. -/
def assembleContext (cands : List Candidate) (entities : List String) : String :=
  (assembleRun cands entities).relevantTexts

/-! ## Source formatting (lines 225–236) -/

/-- Model of `sources = rerankedResults.map((result, index) => ...)`. -/
def formatSource (initialLen : Nat) (i : Nat) (r : Candidate) : Source :=
  { id := "result-" ++ toString i,
    score := r.score,
    document := match r.metadata.text with
      | some t => if t = "" then "No text available" else t
      | none => "No text available",
    metadata :=
      { base := r.metadata,
        score := some r.score,
        id := some r.id,
        retrievalMethod :=
          some (if i < initialLen then "vector_similarity" else "entity_search") } }

def sourcesGo (initialLen : Nat) : Nat → List Candidate → List Source
  | _, [] => []
  | i, r :: rs => formatSource initialLen i r :: sourcesGo initialLen (i + 1) rs

def sourcesOf (reranked : List Candidate) (initialLen : Nat) : List Source :=
  sourcesGo initialLen 0 reranked

/-- One `entityPath` entry (lines 169–174).  A missing text renders as the
JavaScript `undefined + "..."`. -/
def pathEntryOf (r : Candidate) : PathEntry :=
  { nodeId := r.id,
    relationship := "entity_search",
    score := r.score,
    text := (match r.metadata.text with
      | some t => String.mk (t.data.take 100)
      | none => "undefined") ++ "..." }

/-! ## The pipeline (`enhancedVectorRagTool.execute`, lines 26–264)

The external collaborators are modelled as an environment of call results:
each field is what the corresponding call would deliver during this run,
with `Except.error` standing for a thrown exception. -/

structure Env where
  /-- Whether `mastra?.getVector("pgVector")` delivered a store. -/
  hasStore : Bool
  /-- Embedding the query string (lines 37–40). -/
  embedQuery : Except String Unit
  /-- The initial `vectorStore.query` with `topK` (lines 45–50). -/
  query1 : Except String (List Candidate)
  /-- Result of `buildMcp()` plus `mcp.getTools()` (lines 64–65). -/
  mcpTools : Except String Unit
  /-- A tool whose id contains "search" or "web" exists (lines 75–77). -/
  webToolFound : Bool
  /-- Result of `exaWebSearchTool.execute` with `numResults: 5`; the `results`
  field, with a missing field modelled as `[]` (lines 84–89). -/
  webSearch : Except String (List WebResult)
  /-- Embedding the web documents (lines 107–110). -/
  embedDocs : Except String Unit
  /-- Result of `vectorStore.upsert` of the web documents (lines 113–119). -/
  upsert : Except String Unit
  /-- The re-query with `topK + 5` after storage (lines 124–129). -/
  query2 : Except String (List Candidate)
  /-- The embed-plus-query round trip for one entity at a given `topK`
  (lines 307–317). -/
  entityCall : String → Nat → Except String (List Candidate)

/-- The tool's input after `zod` defaulting.  `topK` only parameterizes the
two vector-store calls, which are environment oracles here, so it is not a
field. -/
structure Args where
  query : String
  entityDepth : Nat := 2
  useEntityEnhancement : Bool := true

/-- The web-search fallback block (lines 59–139): the whole block sits in a
`try` whose `catch` keeps every mutation already performed.  Returns
`(webSearchUsed, webSearchResults, initialResults, upsertReached)`; the
last component is a ghost flag recording whether the `upsert` call was
issued. -/
def webBlock (env : Env) (initial : List Candidate) :
    Bool × List WebResult × List Candidate × Bool :=
  match env.mcpTools with
  | .error _ => (false, [], initial, false)
  | .ok _ =>
    if !env.webToolFound then (false, [], initial, false)
    else
      match env.webSearch with
      | .error _ => (false, [], initial, false)
      | .ok rs =>
        if rs.isEmpty then (false, [], initial, false)
        else
          match env.embedDocs with
          | .error _ => (true, rs, initial, false)
          | .ok _ =>
            match env.upsert with
            | .error _ => (true, rs, initial, true)
            | .ok _ =>
              match env.query2 with
              | .error _ => (true, rs, initial, true)
              | .ok urs => (true, rs, if urs.isEmpty then initial else urs, true)

/-- The sufficiency guard around the web block (lines 55–59). -/
def initialAfterWeb (env : Env) (initial : List Candidate) :
    Bool × List WebResult × List Candidate × Bool :=
  if hasSuffLocal initial then (false, [], initial, false)
  else webBlock env initial

/-- The empty-result response (lines 141–150). -/
def emptyResult (query : String) (used : Bool) (wrs : List WebResult) :
    RetrievalResult :=
  { relevantContext :=
      "No relevant information found for the query: \"" ++ query ++
      "\". The knowledge base may be empty or the query doesn\x27t match any stored documents.",
    sources := [],
    entityPath := [],
    entities := [],
    webSearchUsed := used,
    webSearchResults := if used then some wrs else none }

/-- The degraded response of the outer `catch` (lines 247–263). -/
def errorResult (query : String) (message : String) : RetrievalResult :=
  { relevantContext :=
      "Error retrieving information for query: \"" ++ query ++
      "\". Please check if the vector store is properly configured and contains data.",
    sources := [{ id := "error", score := 0,
                  document := "Error occurred during retrieval",
                  metadata := { error := some message } }],
    entityPath := [],
    entities := [],
    webSearchUsed := false,
    webSearchResults := none }

/-- The `entityResults` list (lines 159–166): the entity-expansion results, or `[]`
when enhancement is off or no entities were extracted. -/
def entityResultsOf (env : Env) (args : Args) (initial : List Candidate) :
    List Candidate :=
  if args.useEntityEnhancement && !(extractEntities args.query initial).isEmpty then
    performEntitySearch (extractEntities args.query initial) initial
      args.entityDepth env.entityCall
  else []

/-- The `enhancedResults` list (lines 156–168). -/
def enhancedOf (env : Env) (args : Args) (initial : List Candidate) :
    List Candidate :=
  if (entityResultsOf env args initial).isEmpty then initial
  else initial ++ entityResultsOf env args initial

/-- The `rerankedResults` list (line 179). -/
def rerankedOf (env : Env) (args : Args) (initial : List Candidate) :
    List Candidate :=
  rerankByEntityOverlap (enhancedOf env args initial)
    (extractEntities args.query initial)

/-- The normal-path tail of the pipeline, from entity extraction to the
return object (lines 152–245), given the possibly-web-refreshed initial
results. -/
def normalReturn (env : Env) (args : Args) (used : Bool)
    (wrs : List WebResult) (initial : List Candidate) : RetrievalResult :=
  let relevantTexts :=
    assembleContext (uniqueResults (rerankedOf env args initial))
      (extractEntities args.query initial)
  { relevantContext :=
      if relevantTexts = "" then
        "No text content found for query: \"" ++ args.query ++ "\""
      else relevantTexts,
    sources := sourcesOf (rerankedOf env args initial) initial.length,
    entityPath :=
      if (entityResultsOf env args initial).isEmpty then []
      else (entityResultsOf env args initial).map pathEntryOf,
    entities := extractEntities args.query initial,
    webSearchUsed := used,
    webSearchResults := if used then some wrs else none }

/-- The message of the error thrown when the vector store is absent
(line 33). -/
def storeMissingMsg : String :=
  "Vector store not found. Please ensure pgVector is configured."

/-- Everything inside the outer `try` (lines 29–245).  The second component
of the result is the ghost `upsertReached` flag of the web block. -/
def runInner (env : Env) (args : Args) : Except String (RetrievalResult × Bool) :=
  if !env.hasStore then
    .error storeMissingMsg
  else
    match env.embedQuery with
    | .error e => .error e
    | .ok _ =>
      match env.query1 with
      | .error e => .error e
      | .ok initial0 =>
        match initialAfterWeb env initial0 with
        | (used, wrs, initial, ups) =>
          if initial.isEmpty then (.ok (emptyResult args.query used wrs, ups))
          else .ok (normalReturn env args used wrs initial, ups)

/-- Model of `enhancedVectorRagTool.execute`: the `try`/`catch` boundary.  The
function is total — an error never escapes; it is converted into the
degraded `errorResult`. -/
def executeRag (env : Env) (args : Args) : RetrievalResult × Bool :=
  match runInner env args with
  | .ok r => r
  | .error e => (errorResult args.query e, false)

end RagPipeline

namespace StoreWebResults

/-! ## The storage side channel (`store-web-results-tool.ts`) -/

/-- One input web-search result. -/
structure WebResultIn where
  title : String
  url : String
  snippet : String
  content : Option String := none
deriving DecidableEq, Repr

structure Input where
  searchResults : List WebResultIn
  originalQuery : String
  userRequested : Bool
deriving DecidableEq, Repr

structure Output where
  message : String
  storedCount : Nat
  documentIds : List String
deriving DecidableEq, Repr

/-- One stored document (id and text; the remaining metadata fields are
constants or copies of the input and are not inspected by any claim). -/
structure StoredDoc where
  id : String
  text : String
deriving DecidableEq, Repr

/-- The vector store's contents, as a list of upserted documents. -/
abbrev StoreState := List StoredDoc

/-- The environment of one call: presence of the store, the two fallible
collaborator calls, and `Date.now()`. -/
structure Env where
  hasStore : Bool
  embed : Except String Unit
  upsert : Except String Unit
  now : Nat

/-- Model of `result.content || result.snippet || ''` (an empty `content` is falsy
and falls through to the snippet). -/
def docText (r : WebResultIn) : String :=
  match r.content with
  | some c => if c = "" then r.snippet else c
  | none => r.snippet

/-- The documents built from the search results (`web_<now>_<index>`). -/
def docsOf (now : Nat) (rs : List WebResultIn) : List StoredDoc :=
  (List.range rs.length).zipWith
    (fun i r => { id := "web_" ++ toString now ++ "_" ++ toString i, text := docText r })
    rs

def failMessage (e : String) : String :=
  "❌ Failed to store web search results: " ++ e

/-- Model of `storeWebResultsTool.execute`, with the store state passed explicitly.
Every thrown error is caught by the tool's own `catch` and rendered into
the failure message; the state mutates only when the upsert succeeds. -/
def execute (env : Env) (input : Input) (state : StoreState) :
    Output × StoreState :=
  if !input.userRequested then
    ({ message := "Web search results not stored - user did not request storage",
       storedCount := 0, documentIds := [] }, state)
  else if !env.hasStore then
    ({ message := failMessage "Vector store not available",
       storedCount := 0, documentIds := [] }, state)
  else
    match env.embed with
    | .error e => ({ message := failMessage e, storedCount := 0, documentIds := [] }, state)
    | .ok _ =>
      match env.upsert with
      | .error e => ({ message := failMessage e, storedCount := 0, documentIds := [] }, state)
      | .ok _ =>
        let docs := docsOf env.now input.searchResults
        ({ message := "✅ Successfully stored " ++ toString docs.length ++
             " web search results in knowledge base",
           storedCount := docs.length,
           documentIds := docs.map (fun d => d.id) }, state ++ docs)

end StoreWebResults

namespace RagPipeline

/-! ## Helper lemmas -/

theorem dedupeGo_sublist (seen : List String) (l : List Candidate) :
    List.Sublist (dedupeGo seen l) l := by
  induction l generalizing seen with
  | nil => simp [dedupeGo]
  | cons c cs ih =>
    simp only [dedupeGo]
    split
    · exact (ih seen).cons c
    · exact (ih (c.id :: seen)).cons₂ c

theorem dedupeGo_not_seen (seen : List String) (l : List Candidate) :
    ∀ c ∈ dedupeGo seen l, c.id ∉ seen := by
  induction l generalizing seen with
  | nil => simp [dedupeGo]
  | cons c cs ih =>
    simp only [dedupeGo]
    split
    · exact ih seen
    · intro d hd
      rcases List.mem_cons.mp hd with h | h
      · subst h; assumption
      · have := ih (c.id :: seen) d h
        exact fun hs => this (List.mem_cons_of_mem _ hs)

theorem dedupeGo_nodup (seen : List String) (l : List Candidate) :
    ((dedupeGo seen l).map (fun c => c.id)).Nodup := by
  induction l generalizing seen with
  | nil => simp [dedupeGo]
  | cons c cs ih =>
    simp only [dedupeGo]
    split
    · exact ih seen
    · simp only [List.map_cons, List.nodup_cons]
      refine ⟨?_, ih (c.id :: seen)⟩
      intro hmem
      rcases List.mem_map.mp hmem with ⟨d, hd, hid⟩
      exact dedupeGo_not_seen _ _ d hd (hid ▸ List.mem_cons_self _ _)

theorem dedupeGo_covers (seen : List String) (l : List Candidate) :
    ∀ c ∈ l, c.id ∉ seen → ∃ c' ∈ dedupeGo seen l, c'.id = c.id := by
  induction l generalizing seen with
  | nil => simp
  | cons c cs ih =>
    intro d hd hns
    simp only [dedupeGo]
    rcases List.mem_cons.mp hd with h | h
    · subst h
      split
      · exact absurd ‹d.id ∈ seen› hns
      · exact ⟨d, List.mem_cons_self _ _, rfl⟩
    · split
      · exact ih seen d h hns
      · by_cases hid : d.id = c.id
        · exact ⟨c, List.mem_cons_self _ _, hid.symm⟩
        · rcases ih (c.id :: seen) d h (by
            intro hmem
            rcases List.mem_cons.mp hmem with h1 | h1
            · exact hid h1
            · exact hns h1) with ⟨c', hc', hce⟩
          exact ⟨c', List.mem_cons_of_mem _ hc', hce⟩

theorem dedupeGo_first (seen : List String) (l : List Candidate) :
    ∀ c' ∈ dedupeGo seen l, l.find? (fun d => d.id = c'.id) = some c' := by
  induction l generalizing seen with
  | nil => simp [dedupeGo]
  | cons c cs ih =>
    intro c' hc'
    simp only [dedupeGo] at hc'
    split at hc'
    · have hne : c'.id ≠ c.id := by
        intro he
        exact dedupeGo_not_seen seen cs c' hc' (he ▸ ‹c.id ∈ seen›)
      rw [List.find?_cons]
      have : (decide (c.id = c'.id)) = false := by
        simp [decide_eq_false_iff_not]
        exact fun he => hne he.symm
      rw [this]
      exact ih seen c' hc'
    · rcases List.mem_cons.mp hc' with h | h
      · subst h
        rw [List.find?_cons]
        simp
      · have hns := dedupeGo_not_seen (c.id :: seen) cs c' h
        have hne : c'.id ≠ c.id := fun he => hns (he ▸ List.mem_cons_self _ _)
        rw [List.find?_cons]
        have : (decide (c.id = c'.id)) = false := by
          simp [decide_eq_false_iff_not]
          exact fun he => hne he.symm
        rw [this]
        exact ih (c.id :: seen) c' h

/-- C6 — `uniqueResults` (the `seenIds` filter, lines 181–187) returns the
sublist with pairwise-distinct ids, keeping for each id exactly the first
occurrence of the input with its field values unchanged, in stable
first-seen order; in particular
`dedupe([{id:"a",score:1},{id:"a",score:2}]) = [{id:"a",score:1}]`. -/
theorem claim_c6_dedupe_first_seen (l : List Candidate) :
    ((uniqueResults l).map (fun c => c.id)).Nodup ∧
    List.Sublist (uniqueResults l) l ∧
    (∀ c ∈ l, ∃ c' ∈ uniqueResults l, c'.id = c.id) ∧
    (∀ c' ∈ uniqueResults l, l.find? (fun d => d.id = c'.id) = some c') ∧
    uniqueResults [⟨"a", 1, {}⟩, ⟨"a", 2, {}⟩] = [⟨"a", 1, {}⟩] := by
  refine ⟨dedupeGo_nodup [] l, dedupeGo_sublist [] l, ?_, dedupeGo_first [] l, by decide⟩
  intro c hc
  exact dedupeGo_covers [] l c hc (by simp)

/-- C6 witness: the theorem applied to the duplicated-id example. -/
theorem claim_c6_dedupe_first_seen_witness :
    ∃ c' ∈ uniqueResults [⟨"a", 1, {}⟩, ⟨"a", 2, {}⟩], c'.id = "a" :=
  (claim_c6_dedupe_first_seen [⟨"a", 1, {}⟩, ⟨"a", 2, {}⟩]).2.2.1
    ⟨"a", 2, {}⟩ (by decide)

unseal Rat.ofScientific in
/-- C2 — the sufficiency gate (lines 55–58) accepts exactly the non-empty
candidate lists containing a score strictly above 0.7, a missing score
counting as 0; with the three examples of the spec. -/
theorem claim_c2_sufficiency_gate (l : List ScoredHit) :
    (hasSufficientLocalResults l = true ↔
      l ≠ [] ∧ ∃ r ∈ l, (0.7 : ℚ) < r.score.getD 0) ∧
    hasSufficientLocalResults [] = false ∧
    hasSufficientLocalResults [{ score := some (0.71 : ℚ) }] = true ∧
    hasSufficientLocalResults
      [{ score := some (0.5 : ℚ) }, { score := some (0.69 : ℚ) }] = false := by
  refine ⟨?_, by decide, by decide, by decide⟩
  simp only [hasSufficientLocalResults, Bool.and_eq_true, List.any_eq_true,
    decide_eq_true_iff]
  constructor
  · rintro ⟨h1, r, hr, h2⟩
    exact ⟨List.ne_nil_of_length_pos h1, r, hr, h2⟩
  · rintro ⟨h1, r, hr, h2⟩
    exact ⟨List.length_pos.mpr h1, r, hr, h2⟩

unseal Rat.ofScientific in
/-- C2 witness: the gate evaluated through the theorem at the
single-strong-hit example. -/
theorem claim_c2_sufficiency_gate_witness :
    hasSufficientLocalResults [{ score := some (0.71 : ℚ) }] = true :=
  (claim_c2_sufficiency_gate []).2.2.1

theorem insertDesc_perm (c : Candidate) (l : List Candidate) :
    List.Perm (insertDesc c l) (c :: l) := by
  induction l with
  | nil => simp [insertDesc]
  | cons d ds ih =>
    simp only [insertDesc]
    split
    · exact List.Perm.refl _
    · exact List.Perm.trans (List.Perm.cons d ih) (List.Perm.swap c d ds)

theorem sortDesc_perm (l : List Candidate) : List.Perm (sortDesc l) l := by
  induction l with
  | nil => exact List.Perm.refl _
  | cons c cs ih =>
    exact List.Perm.trans (insertDesc_perm c (sortDesc cs)) (List.Perm.cons c ih)

theorem insertDesc_pairwise (c : Candidate) (l : List Candidate)
    (h : List.Pairwise (fun a b => b.score ≤ a.score) l) :
    List.Pairwise (fun a b => b.score ≤ a.score) (insertDesc c l) := by
  induction l with
  | nil => simp [insertDesc]
  | cons d ds ih =>
    rcases List.pairwise_cons.mp h with ⟨hd, hds⟩
    simp only [insertDesc]
    split
    · refine List.pairwise_cons.mpr ⟨?_, h⟩
      intro x hx
      rcases List.mem_cons.mp hx with h1 | h1
      · exact h1 ▸ (by assumption)
      · exact le_trans (hd x h1) (by assumption)
    · refine List.pairwise_cons.mpr ⟨?_, ih hds⟩
      intro x hx
      have hx' : x ∈ c :: ds := (insertDesc_perm c ds).mem_iff.mp hx
      rcases List.mem_cons.mp hx' with h1 | h1
      · subst h1
        exact le_of_lt (lt_of_not_ge (by assumption))
      · exact hd x h1

theorem sortDesc_pairwise (l : List Candidate) :
    List.Pairwise (fun a b => b.score ≤ a.score) (sortDesc l) := by
  induction l with
  | nil => simp [sortDesc]
  | cons c cs ih => exact insertDesc_pairwise c (sortDesc cs) ih

theorem insertDesc_filter_score (c : Candidate) (l : List Candidate) (q : ℚ) :
    (insertDesc c l).filter (fun d => decide (d.score = q)) =
      (c :: l).filter (fun d => decide (d.score = q)) := by
  induction l with
  | nil => rfl
  | cons d ds ih =>
    simp only [insertDesc]
    split
    · rfl
    · have hlt : c.score < d.score := lt_of_not_ge (by assumption)
      by_cases hd : d.score = q <;> by_cases hc : c.score = q
      · exfalso; rw [hd, hc] at hlt; exact lt_irrefl q hlt
      all_goals simp [List.filter_cons, hd, hc, ih]

theorem sortDesc_filter_score (l : List Candidate) (q : ℚ) :
    (sortDesc l).filter (fun d => decide (d.score = q)) =
      l.filter (fun d => decide (d.score = q)) := by
  induction l with
  | nil => rfl
  | cons c cs ih =>
    calc (insertDesc c (sortDesc cs)).filter (fun d => decide (d.score = q))
        = (c :: sortDesc cs).filter (fun d => decide (d.score = q)) :=
          insertDesc_filter_score c (sortDesc cs) q
      _ = (c :: cs).filter (fun d => decide (d.score = q)) := by
          simp only [List.filter_cons]
          rw [ih]

/-- C4 — `rerankByEntityOverlap` (lines 343–372): with no entities it is the
identity; otherwise every output candidate is an input candidate whose
score was boosted by `0.1` per whole-word case-insensitive entity
occurrence in its text (with `entityScore` and `boostedScore` recorded on
metadata), and the output is the boosted input sorted by score descending,
stably (for every score value, the candidates carrying it appear in input
order — the characteristic property of a stable sort). -/
theorem claim_c4_rerank (cands : List Candidate) (entities : List String) :
    rerankByEntityOverlap cands [] = cands ∧
    (entities ≠ [] →
      List.Perm (rerankByEntityOverlap cands entities)
        (cands.map (boostCand entities)) ∧
      List.Pairwise (fun a b => b.score ≤ a.score)
        (rerankByEntityOverlap cands entities) ∧
      (∀ q : ℚ,
        (rerankByEntityOverlap cands entities).filter (fun d => decide (d.score = q)) =
          (cands.map (boostCand entities)).filter (fun d => decide (d.score = q))) ∧
      (∀ c' ∈ rerankByEntityOverlap cands entities, ∃ c ∈ cands,
        c'.id = c.id ∧
        c'.score = c.score + (entityOccTotal entities c : ℚ) * (0.1 : ℚ) ∧
        c'.metadata.entityScore = some ((entityOccTotal entities c : ℚ)) ∧
        c'.metadata.boostedScore = some c'.score)) := by
  constructor
  · simp [rerankByEntityOverlap]
  · intro hne
    have hif : rerankByEntityOverlap cands entities =
        sortDesc (cands.map (boostCand entities)) := by
      simp [rerankByEntityOverlap, List.isEmpty_iff, hne]
    refine ⟨hif ▸ sortDesc_perm _, hif ▸ sortDesc_pairwise _,
      fun q => hif ▸ sortDesc_filter_score _ q, ?_⟩
    intro c' hc'
    rw [hif] at hc'
    have hmem : c' ∈ cands.map (boostCand entities) :=
      (sortDesc_perm _).mem_iff.mp hc'
    rcases List.mem_map.mp hmem with ⟨c, hc, hb⟩
    exact ⟨c, hc, by rw [← hb]; rfl, by rw [← hb]; rfl,
      by rw [← hb]; rfl, by rw [← hb]; rfl⟩

/-- C4 witness: the theorem applied to one candidate and one entity. -/
theorem claim_c4_rerank_witness :
    List.Perm
      (rerankByEntityOverlap [⟨"a", 0.5, { text := some "fire fire" }⟩] ["fire"])
      ([⟨"a", 0.5, { text := some "fire fire" }⟩].map (boostCand ["fire"])) :=
  ((claim_c4_rerank [⟨"a", 0.5, { text := some "fire fire" }⟩] ["fire"]).2
    (by decide)).1

theorem entitySearchGo_spec (initial : List Candidate) (depth : Nat)
    (f : String → Nat → Except String (List Candidate)) :
    ∀ (es : List String) (acc : List Candidate),
      ∀ c ∈ entitySearchGo initial depth f es acc,
        c ∈ acc ∨ ∃ e ∈ es, ∃ l, f e (min 5 (depth * 2)) = .ok l ∧
          ∃ r ∈ l, entityHitKeep initial r = true ∧ c = entityHitTransform e r := by
  intro es
  induction es with
  | nil => intro acc c hc; exact Or.inl hc
  | cons e rest ih =>
    intro acc c hc
    simp only [entitySearchGo] at hc
    split at hc
    · rcases ih acc c hc with h | ⟨e', he', rest'⟩
      · exact Or.inl h
      · exact Or.inr ⟨e', List.mem_cons_of_mem _ he', rest'⟩
    · split at hc
      · exact Or.inl hc
      · rcases ih _ c hc with h | ⟨e', he', rest'⟩
        · rcases List.mem_append.mp h with h1 | h1
          · exact Or.inl h1
          · rcases List.mem_map.mp h1 with ⟨r, hr, ht⟩
            rcases List.mem_filter.mp hr with ⟨hrl, hrk⟩
            exact Or.inr ⟨e, List.mem_cons_self _ _,
              _, (by assumption), r, hrl, hrk, ht.symm⟩
        · exact Or.inr ⟨e', List.mem_cons_of_mem _ he', rest'⟩

/-- C3 — `performEntitySearch` (lines 290–340) uses at most the first 3
entities, issues each per-entity vector query with `topK = min(5, depth*2)`,
and every candidate it returns has an id absent from the initial candidate
list, a raw vector-store score strictly above 0.7, a final score equal to
the raw score times 0.7, and metadata tagged `entitySearch := true` and
`entity := ` the triggering entity. -/
theorem claim_c3_entity_expansion (entities : List String)
    (initial : List Candidate) (depth : Nat)
    (f : String → Nat → Except String (List Candidate)) :
    performEntitySearch entities initial depth f =
      performEntitySearch (entities.take 3) initial depth f ∧
    ∀ c ∈ performEntitySearch entities initial depth f,
      (∀ i ∈ initial, i.id ≠ c.id) ∧
      ∃ e ∈ entities.take 3, ∃ l, f e (min 5 (depth * 2)) = .ok l ∧
        ∃ r ∈ l, (0.7 : ℚ) < r.score ∧
          c.id = r.id ∧
          c.score = r.score * (0.7 : ℚ) ∧
          c.metadata.entitySearch = some true ∧
          c.metadata.entity = some e := by
  constructor
  · simp [performEntitySearch, List.take_take]
  · intro c hc
    rcases entitySearchGo_spec initial depth f (entities.take 3) [] c hc with
      h | ⟨e, he, l, hl, r, hr, hk, ht⟩
    · simp at h
    · rcases Bool.and_eq_true_iff.mp hk with ⟨hall, hsc⟩
      have hids : ∀ i ∈ initial, i.id ≠ r.id := by
        intro i hi
        have := List.all_eq_true.mp hall i hi
        exact of_decide_eq_true this
      have hscore : (0.7 : ℚ) < r.score := of_decide_eq_true hsc
      subst ht
      exact ⟨hids, e, he, l, hl, r, hr, hscore, rfl, rfl, rfl, rfl⟩

unseal Rat.mul Rat.ofScientific in
/-- C3 witness: a one-entity environment returning one strong novel hit;
the hypotheses of the theorem are discharged at that input. -/
theorem claim_c3_entity_expansion_witness :
    ∀ i ∈ ([] : List Candidate), i.id ≠ "n1" :=
  have hmem : entityHitTransform "alpha" ⟨"n1", 0.8, {}⟩ ∈
      performEntitySearch ["alpha"] [] 1 (fun _ _ => .ok [⟨"n1", 0.8, {}⟩]) := by
    have heq : performEntitySearch ["alpha"] [] 1
        (fun _ _ => .ok [⟨"n1", 0.8, {}⟩]) =
        [entityHitTransform "alpha" ⟨"n1", 0.8, {}⟩] := rfl
    rw [heq]
    exact List.mem_singleton.mpr rfl
  have h := (claim_c3_entity_expansion ["alpha"] [] 1
    (fun _ _ => .ok [⟨"n1", 0.8, {}⟩])).2
    (entityHitTransform "alpha" ⟨"n1", 0.8, {}⟩) hmem
  h.1

/-- The loop invariant of the context-assembly loop: the length counter
stays within budget, at most 15 results are accepted, the ghost fragment
counter tracks the accepted count, and the accumulated string is the
accepted text plus one two-character separator between consecutive
fragments. -/
def AsmInv (s : AsmState) : Prop :=
  s.currentLength ≤ 6000 ∧ s.addedCount ≤ 15 ∧ s.fragments = s.addedCount ∧
  (s.addedCount = 0 → s.relevantTexts = "" ∧ s.currentLength = 0) ∧
  (0 < s.addedCount → s.relevantTexts.length + 2 ≤ s.currentLength + 2 * s.addedCount)

theorem asmInv_post (s : AsmState) (hs : AsmInv s) :
    s.relevantTexts.length ≤ 6028 ∧ s.fragments ≤ 15 := by
  obtain ⟨h1, h2, h3, h4, h5⟩ := hs
  by_cases h0 : s.addedCount = 0
  · obtain ⟨he, -⟩ := h4 h0
    rw [he]
    refine ⟨by simp, by omega⟩
  · have := h5 (Nat.pos_of_ne_zero h0)
    exact ⟨by omega, by omega⟩

theorem strLength_mk (l : List Char) : (String.mk l).length = l.length := rfl

theorem strLen_sep : ("\n\n" : String).length = 2 := rfl

theorem strLen_dots : ("..." : String).length = 3 := rfl

theorem strLen_nil : ("" : String).length = 0 := rfl

theorem assembleGo_bound (entities : List String) (cands : List Candidate) :
    ∀ s : AsmState, AsmInv s →
      (assembleGo entities cands s).relevantTexts.length ≤ 6028 ∧
      (assembleGo entities cands s).fragments ≤ 15 := by
  induction cands with
  | nil => intro s hs; exact asmInv_post s hs
  | cons r rest ih =>
    intro s hs
    obtain ⟨h1, h2, h3, h4, h5⟩ := hs
    simp only [assembleGo]
    by_cases hk : s.addedCount ≥ 15
    · simp only [if_pos hk]
      exact asmInv_post s ⟨h1, h2, h3, h4, h5⟩
    · simp only [if_neg hk]
      cases htext : r.metadata.text with
      | none => exact ih s ⟨h1, h2, h3, h4, h5⟩
      | some text =>
        by_cases hempty : text = ""
        · simp only [if_pos hempty]
          exact ih s ⟨h1, h2, h3, h4, h5⟩
        · simp only [if_neg hempty]
          by_cases hshort : text.length < 50
          · simp only [if_pos hshort]
            exact ih s ⟨h1, h2, h3, h4, h5⟩
          · simp only [if_neg hshort]
            by_cases hrel : (!hasRelevantContent entities (lowerStr text)) = true
            · simp only [if_pos hrel]
              exact ih s ⟨h1, h2, h3, h4, h5⟩
            · simp only [if_neg hrel]
              by_cases hover : s.currentLength + text.length > 6000
              · simp only [if_pos hover]
                by_cases hroom : 6000 - s.currentLength > 200
                · simp only [if_pos hroom]
                  have htake : (text.data.take (6000 - s.currentLength - 200)).length =
                      min (6000 - s.currentLength - 200) text.data.length :=
                    List.length_take _ _
                  have hlink : text.length = text.data.length := rfl
                  constructor
                  · dsimp only
                    simp only [String.length_append, strLength_mk, strLen_sep,
                      strLen_dots]
                    by_cases h0 : s.addedCount = 0
                    · obtain ⟨he, -⟩ := h4 h0
                      have hz : s.relevantTexts.length = 0 := by rw [he]; rfl
                      omega
                    · have h5' := h5 (Nat.pos_of_ne_zero h0)
                      omega
                  · dsimp only
                    omega
                · simp only [if_neg hroom]
                  exact asmInv_post s ⟨h1, h2, h3, h4, h5⟩
              · simp only [if_neg hover]
                refine ih _ ⟨by dsimp only; omega, by dsimp only; omega,
                  by dsimp only; omega,
                  by dsimp only; intro h; exact absurd h (Nat.succ_ne_zero _), ?_⟩
                dsimp only
                intro _
                by_cases hre : s.relevantTexts = ""
                · simp only [hre, if_pos]
                  simp only [String.length_append, strLen_nil]
                  omega
                · simp only [if_neg hre]
                  have h0 : s.addedCount ≠ 0 := fun h0 => hre (h4 h0).1
                  have h5' := h5 (Nat.pos_of_ne_zero h0)
                  simp only [String.length_append, strLen_sep]
                  omega

/-- C1 claims the assembled context never exceeds 6000 characters.  It can:
the running length counter counts only candidate text, not the two-character
separators the loop inserts between fragments.  Two accepted 3000-character
texts assemble to 6002 characters. -/
def overflowText : String := String.mk (List.replicate 3000 'a')

def overflowCands : List Candidate :=
  [⟨"c1", 1, { text := some overflowText }⟩,
   ⟨"c2", 1, { text := some overflowText }⟩]

/-- The accept step of the assembly loop, as one equation. -/
theorem assembleGo_accept (entities : List String) (r : Candidate)
    (rest : List Candidate) (s : AsmState) (text : String)
    (ht : r.metadata.text = some text)
    (hk : s.addedCount < 15)
    (hne : text ≠ "")
    (hlong : ¬ text.length < 50)
    (hrel : hasRelevantContent entities (lowerStr text) = true)
    (hfit : ¬ s.currentLength + text.length > 6000) :
    assembleGo entities (r :: rest) s =
      assembleGo entities rest
        { relevantTexts :=
            s.relevantTexts ++ (if s.relevantTexts = "" then "" else "\n\n") ++ text,
          currentLength := s.currentLength + text.length,
          addedCount := s.addedCount + 1,
          fragments := s.fragments + 1 } := by
  simp only [assembleGo, ht, if_neg (by omega : ¬ s.addedCount ≥ 15), if_neg hne,
    if_neg hlong, hrel, Bool.not_true, Bool.false_eq_true, if_false, if_neg hfit]

theorem overflowText_len : overflowText.length = 3000 := by
  rw [show overflowText.length = (List.replicate 3000 'a').length from rfl,
    List.length_replicate]

theorem overflowText_props :
    overflowText.length = 3000 ∧ overflowText ≠ "" ∧
    hasRelevantContent ["aaaa"] (lowerStr overflowText) = true := by
  refine ⟨overflowText_len, ?_, ?_⟩
  · intro h
    have h0 : overflowText.length = 0 := by rw [h]; rfl
    rw [overflowText_len] at h0
    omega
  · rfl

/-- C1 counterexample: a deduplicated candidate list and entity set on which
the assembled context string is 6002 characters long, exceeding
`maxContextLength = 6000` (two accepted 3000-character texts plus the
uncounted two-character separator). -/
theorem claim_c1_counterexample :
    6000 < (assembleContext overflowCands ["aaaa"]).length := by
  obtain ⟨hlen, hne, hrel⟩ := overflowText_props
  have step1 := assembleGo_accept ["aaaa"]
    ⟨"c1", 1, { text := some overflowText }⟩
    [⟨"c2", 1, { text := some overflowText }⟩] {} overflowText rfl
    (by decide) hne (by rw [hlen]; omega) hrel (by dsimp only; rw [hlen]; omega)
  have step2 := assembleGo_accept ["aaaa"]
    ⟨"c2", 1, { text := some overflowText }⟩ []
    { relevantTexts := "" ++ (if ("" : String) = "" then "" else "\n\n") ++ overflowText,
      currentLength := ({} : AsmState).currentLength + overflowText.length,
      addedCount := 1, fragments := 1 } overflowText rfl
    (by decide) hne (by rw [hlen]; omega) hrel (by dsimp only; rw [hlen]; omega)
  show 6000 < (assembleGo ["aaaa"] (_ :: _ :: []) {}).relevantTexts.length
  rw [step1, step2]
  simp only [assembleGo]
  simp only [String.length_append, strLen_sep, hlen, if_true]
  have hcat : (("" : String) ++ "") ++ overflowText = overflowText := rfl
  rw [hcat, if_neg hne]
  simp only [strLen_nil, strLen_sep]
  omega

/-- C1 amended — the context-assembly loop (lines 189–223) keeps the *sum of
accepted candidate text* at most 6000 characters but does not count its
two-character separators, so the context string is bounded by
`6000 + 2·14 = 6028` characters (not 6000); the text of at most
`maxResults = 15` candidates is incorporated. -/
theorem claim_c1_amended_context_bounds (cands : List Candidate)
    (entities : List String) :
    (assembleRun cands entities).relevantTexts.length ≤ 6028 ∧
    (assembleRun cands entities).fragments ≤ 15 :=
  assembleGo_bound entities cands {}
    ⟨by decide, by decide, rfl, fun _ => ⟨rfl, rfl⟩, fun h => absurd h (by decide)⟩

theorem firstSeenGo_mem (l : List String) :
    ∀ (seen : List String) (e : String), e ∈ firstSeenGo seen l → e ∈ l := by
  induction l with
  | nil => intro seen e h; exact absurd h (List.not_mem_nil e)
  | cons s rest ih =>
    intro seen e h
    simp only [firstSeenGo] at h
    split at h
    · exact List.mem_cons_of_mem _ (ih seen e h)
    · rcases List.mem_cons.mp h with h1 | h1
      · exact h1 ▸ List.mem_cons_self _ _
      · exact List.mem_cons_of_mem _ (ih (s :: seen) e h1)

theorem firstSeen_mem (l : List String) (e : String) (h : e ∈ firstSeen l) :
    e ∈ l :=
  firstSeenGo_mem l [] e h

/-- C8 claims every query-time entity avoids that call site's stop-word
list; but `extractEntities` applies no stop-word filter at all — the
query-time list (`commonWords` of `performEntitySearch`, the 12-entry list
the spec counts as "~15") is only consulted later, inside entity-expansion
search.  "with" is a lower-cased 4-letter token, is extracted from the
query "with", and is on that stop list. -/
theorem claim_c8_counterexample :
    "with" ∈ extractEntities "with" [] ∧ "with" ∈ entitySearchCommonWords := by
  constructor
  · show "with" ∈ firstSeen (queryTokens "with" ++ [])
    decide
  · decide

/-- C8 amended — every entity either extractor derives from the text itself
is a token of the lower-cased whitespace-split text, of length > 3,
composed only of ASCII letters; the ingestion-time extractor
(`extractSimpleEntities`) additionally drops its 68-entry stop-word list,
while the query-time extractor (`extractEntities`) applies no stop-word
filter (its call site's stop list is applied only later, in
entity-expansion search). -/
theorem claim_c8_amended_extractors (text : String) :
    (∀ e ∈ extractEntities text [],
      e ∈ splitWs (lowerStr text) ∧ 3 < e.length ∧ e.data.all isAsciiLetter = true) ∧
    (∀ e ∈ extractSimpleEntities text,
      e ∈ splitWs (lowerStr text) ∧ 3 < e.length ∧ e.data.all isAsciiLetter = true ∧
      e ∉ ingestCommonWords) := by
  constructor
  · intro e he
    have he' : e ∈ queryTokens text := by
      have := firstSeen_mem _ e he
      simpa using this
    rcases List.mem_filter.mp he' with ⟨hmem, hok⟩
    rcases Bool.and_eq_true_iff.mp hok with ⟨hlen, hletters⟩
    exact ⟨hmem, of_decide_eq_true hlen, hletters⟩
  · intro e he
    have he1 : e ∈ firstSeen (((splitWs (lowerStr text)).filter tokenOk).filter
        (fun w => decide (w ∉ ingestCommonWords))) := by
      have hsub : List.Sublist (extractSimpleEntities text)
          (firstSeen (((splitWs (lowerStr text)).filter tokenOk).filter
            (fun w => decide (w ∉ ingestCommonWords)))) := List.take_sublist _ _
      exact hsub.mem he
    have he2 := firstSeen_mem _ e he1
    rcases List.mem_filter.mp he2 with ⟨he3, hstop⟩
    rcases List.mem_filter.mp he3 with ⟨hmem, hok⟩
    rcases Bool.and_eq_true_iff.mp hok with ⟨hlen, hletters⟩
    exact ⟨hmem, of_decide_eq_true hlen, hletters, of_decide_eq_true hstop⟩

/-- C8 amended witness: the theorem applied to the text "hello". -/
theorem claim_c8_amended_extractors_witness :
    "hello" ∈ splitWs (lowerStr "hello") ∧ 3 < ("hello" : String).length ∧
      ("hello" : String).data.all isAsciiLetter = true :=
  (claim_c8_amended_extractors "hello").1 "hello" (by decide)

/-! ## Pipeline-level lemmas -/

theorem normalReturn_used (env : Env) (args : Args) (used : Bool)
    (wrs : List WebResult) (initial : List Candidate) :
    (normalReturn env args used wrs initial).webSearchUsed = used := rfl

theorem normalReturn_webres (env : Env) (args : Args) (used : Bool)
    (wrs : List WebResult) (initial : List Candidate) :
    (normalReturn env args used wrs initial).webSearchResults =
      if used then some wrs else none := rfl

theorem normalReturn_sources (env : Env) (args : Args) (used : Bool)
    (wrs : List WebResult) (initial : List Candidate) :
    (normalReturn env args used wrs initial).sources =
      sourcesOf (rerankedOf env args initial) initial.length := rfl

/-- Any successful run of the guarded body relates `webSearchResults` to
`webSearchUsed` by the final ternary of both return sites. -/
theorem runInner_webfield (env : Env) (args : Args) (r : RetrievalResult)
    (u : Bool) (h : runInner env args = .ok (r, u)) :
    r.webSearchResults.isSome = r.webSearchUsed := by
  unfold runInner at h
  split at h
  · exact absurd h (by simp)
  · cases henv : env.embedQuery with
    | error e => rw [henv] at h; exact absurd h (by simp)
    | ok a =>
      rw [henv] at h
      cases hq : env.query1 with
      | error e => rw [hq] at h; exact absurd h (by simp)
      | ok initial0 =>
        rw [hq] at h
        dsimp only at h
        rcases hw : initialAfterWeb env initial0 with ⟨used, wrs, initial, ups⟩
        rw [hw] at h
        dsimp only at h
        split at h
        · rcases Except.ok.inj h with h'
          rcases Prod.mk.injEq .. ▸ h' with ⟨h1, -⟩
          rw [← h1]
          show (if used then some wrs else none).isSome = used
          cases used <;> rfl
        · rcases Except.ok.inj h with h'
          rcases Prod.mk.injEq .. ▸ h' with ⟨h1, -⟩
          rw [← h1, normalReturn_webres, normalReturn_used]
          cases used <;> rfl

/-- C10 — on every return path (normal, empty-result, and error) the
`webSearchResults` field is present exactly when `webSearchUsed` is true:
both normal return sites emit `webSearchUsed ? webSearchResults : undefined`
and the error path emits `false` with `undefined`. -/
theorem claim_c10_webresults_iff_used (env : Env) (args : Args) :
    ((executeRag env args).1.webSearchResults).isSome =
      (executeRag env args).1.webSearchUsed := by
  unfold executeRag
  cases hr : runInner env args with
  | error e => simp [errorResult]
  | ok p =>
    obtain ⟨r, u⟩ := p
    simpa using runInner_webfield env args r u hr

/-- C5 — the outer catch (lines 247–263): whenever the guarded body throws
(in particular whenever the vector store is absent), the tool still returns
a `RetrievalResult`, whose `sources` is exactly one `id := "error"` entry,
with empty `entityPath` and `entities`, `webSearchUsed = false` and no
`webSearchResults`. -/
theorem claim_c5_error_boundary (env : Env) (args : Args) :
    (∀ e, runInner env args = .error e →
      (executeRag env args).1.sources =
        [{ id := "error", score := 0,
           document := "Error occurred during retrieval",
           metadata := { error := some e } }] ∧
      (executeRag env args).1.entityPath = [] ∧
      (executeRag env args).1.entities = [] ∧
      (executeRag env args).1.webSearchUsed = false ∧
      (executeRag env args).1.webSearchResults = none) ∧
    (env.hasStore = false →
      runInner env args = .error storeMissingMsg) := by
  constructor
  · intro e h
    simp [executeRag, h, errorResult]
  · intro h
    simp [runInner, h]

/-- An environment with no vector store configured. -/
def deadEnv : Env :=
  { hasStore := false, embedQuery := .ok (), query1 := .ok [],
    mcpTools := .ok (), webToolFound := false, webSearch := .ok [],
    embedDocs := .ok (), upsert := .ok (), query2 := .ok [],
    entityCall := fun _ _ => .ok [] }

/-- C5 witness: the missing-store environment, with both hypotheses of the
theorem discharged at it. -/
theorem claim_c5_error_boundary_witness :
    (executeRag deadEnv { query := "q" }).1.sources =
      [{ id := "error", score := 0,
         document := "Error occurred during retrieval",
         metadata := { error := some storeMissingMsg } }] ∧
    (executeRag deadEnv { query := "q" }).1.entityPath = [] ∧
    (executeRag deadEnv { query := "q" }).1.entities = [] ∧
    (executeRag deadEnv { query := "q" }).1.webSearchUsed = false ∧
    (executeRag deadEnv { query := "q" }).1.webSearchResults = none :=
  (claim_c5_error_boundary deadEnv { query := "q" }).1 _
    ((claim_c5_error_boundary deadEnv { query := "q" }).2 rfl)

/-- The upsert of web documents is reached only when the sufficiency gate
failed on the initial results. -/
theorem executeRag_upsert_needs_insufficiency (env : Env) (args : Args)
    (l : List Candidate) (h : (executeRag env args).2 = true)
    (hq : env.query1 = .ok l) : hasSuffLocal l = false := by
  unfold executeRag at h
  cases hr : runInner env args with
  | error e => rw [hr] at h; simp at h
  | ok p =>
    rw [hr] at h
    obtain ⟨r, u⟩ := p
    dsimp only at h
    unfold runInner at hr
    split at hr
    · exact absurd hr (by simp)
    · cases henv : env.embedQuery with
      | error e => rw [henv] at hr; exact absurd hr (by simp)
      | ok a =>
        rw [henv, hq] at hr
        dsimp only at hr
        cases hb : hasSuffLocal l with
        | false => rfl
        | true =>
          have hw : initialAfterWeb env l = (false, [], l, false) := by
            simp [initialAfterWeb, hb]
          rw [hw] at hr
          dsimp only at hr
          split at hr
          · rcases Except.ok.inj hr with h'
            rcases Prod.mk.injEq .. ▸ h' with ⟨-, h2⟩
            rw [← h2] at h
            exact absurd h (by simp)
          · rcases Except.ok.inj hr with h'
            rcases Prod.mk.injEq .. ▸ h' with ⟨-, h2⟩
            rw [← h2] at h
            exact absurd h (by simp)

/-- C7 — web results are written only deliberately: the storage tool
(store-web-results-tool.ts, lines 28–35) is a pure no-op returning zero
stored documents and an unchanged store when `userRequested` is false, and
the pipeline itself reaches its upsert (lines 113–119) only on the
automatic insufficient-recall path. -/
theorem claim_c7_storage_only_deliberate :
    (∀ (senv : StoreWebResults.Env) (input : StoreWebResults.Input)
        (state : StoreWebResults.StoreState),
      input.userRequested = false →
        StoreWebResults.execute senv input state =
          ({ message := "Web search results not stored - user did not request storage",
             storedCount := 0, documentIds := [] }, state)) ∧
    (∀ (env : Env) (args : Args) (l : List Candidate),
      (executeRag env args).2 = true → env.query1 = .ok l →
        hasSuffLocal l = false) := by
  constructor
  · intro senv input state h
    unfold StoreWebResults.execute
    rw [h]
    rfl
  · intro env args l h hq
    exact executeRag_upsert_needs_insufficiency env args l h hq

/-- C7 witness: the no-op path evaluated at a concrete non-requested
input. -/
theorem claim_c7_storage_only_deliberate_witness :
    StoreWebResults.execute ⟨true, .ok (), .ok (), 0⟩
        ⟨[⟨"t", "u", "s", none⟩], "q", false⟩ [] =
      ({ message := "Web search results not stored - user did not request storage",
         storedCount := 0, documentIds := [] }, []) :=
  claim_c7_storage_only_deliberate.1 ⟨true, .ok (), .ok (), 0⟩
    ⟨[⟨"t", "u", "s", none⟩], "q", false⟩ [] rfl

theorem sourcesGo_length (n : Nat) :
    ∀ (l : List Candidate) (j : Nat), (sourcesGo n j l).length = l.length := by
  intro l
  induction l with
  | nil => intro j; rfl
  | cons r rs ih => intro j; simp [sourcesGo, ih (j + 1)]

theorem sourcesGo_getElem? (n : Nat) :
    ∀ (l : List Candidate) (j i : Nat),
      (sourcesGo n j l)[i]? = (l[i]?).map (fun r => formatSource n (j + i) r) := by
  intro l
  induction l with
  | nil => intro j i; simp [sourcesGo]
  | cons r rs ih =>
    intro j i
    cases i with
    | zero => simp [sourcesGo]
    | succ k =>
      simp only [sourcesGo, List.getElem?_cons_succ, ih (j + 1) k]
      have : j + 1 + k = j + (k + 1) := by omega
      rw [this]

/-- The normal return site, reached when the (possibly web-refreshed)
initial results are non-empty. -/
theorem runInner_normal (env : Env) (args : Args) (initial0 : List Candidate)
    (hs : env.hasStore = true) (he : env.embedQuery = .ok ())
    (hq : env.query1 = .ok initial0) (used : Bool) (wrs : List WebResult)
    (initial : List Candidate) (ups : Bool)
    (hw : initialAfterWeb env initial0 = (used, wrs, initial, ups))
    (hne : initial.isEmpty = false) :
    runInner env args = .ok (normalReturn env args used wrs initial, ups) := by
  unfold runInner
  rw [hs, he, hq]
  dsimp only
  rw [hw]
  dsimp only
  rw [hne]
  rfl

/-- C9 amended — on the normal path the `sources` list is built from the
full *reranked* candidate list (before deduplication — not from the
deduplicated list as the spec claims), one entry per reranked candidate in
that order, and the entry at positional index `i` carries
`retrievalMethod = "vector_similarity"` iff `i` is below the length of the
initial-search result list in force at that point. -/
theorem claim_c9_amended_sources_positional (env : Env) (args : Args)
    (initial0 : List Candidate)
    (hs : env.hasStore = true) (he : env.embedQuery = .ok ())
    (hq : env.query1 = .ok initial0) (used : Bool) (wrs : List WebResult)
    (initial : List Candidate) (ups : Bool)
    (hw : initialAfterWeb env initial0 = (used, wrs, initial, ups))
    (hne : initial.isEmpty = false) :
    (executeRag env args).1.sources =
      sourcesOf (rerankedOf env args initial) initial.length ∧
    (executeRag env args).1.sources.length =
      (rerankedOf env args initial).length ∧
    (∀ (i : Nat) (r' : Source), ((executeRag env args).1.sources)[i]? = some r' →
      r'.metadata.retrievalMethod =
        some (if i < initial.length then "vector_similarity" else "entity_search")) := by
  have hrun := runInner_normal env args initial0 hs he hq used wrs initial ups hw hne
  have hex : (executeRag env args).1 = normalReturn env args used wrs initial := by
    unfold executeRag
    rw [hrun]
  rw [hex, normalReturn_sources]
  refine ⟨rfl, sourcesGo_length _ _ 0, ?_⟩
  intro i r' hget
  rw [sourcesOf, sourcesGo_getElem?] at hget
  cases hc : (rerankedOf env args initial)[i]? with
  | none => rw [hc] at hget; exact absurd hget (by simp)
  | some c =>
    rw [hc] at hget
    have : r' = formatSource initial.length (0 + i) c := by
      simpa using hget.symm
    rw [this]
    have h0i : 0 + i = i := by omega
    rw [h0i]
    rfl

def dupA : Candidate := ⟨"x", 0.9, { text := some "t" }⟩

def dupB : Candidate := ⟨"x", 0.8, { text := some "u" }⟩

/-- An environment whose initial vector search returns two hits sharing the
id "x" (a vector store is free to do so). -/
def envDupIds : Env :=
  { hasStore := true, embedQuery := .ok (), query1 := .ok [dupA, dupB],
    mcpTools := .ok (), webToolFound := false, webSearch := .ok [],
    embedDocs := .ok (), upsert := .ok (), query2 := .ok [],
    entityCall := fun _ _ => .ok [] }

unseal Rat.ofScientific in
/-- C9 counterexample: the claim says `sources` is built from the reranked
*and deduplicated* list, one entry per candidate.  On this run the
deduplicated reranked list has 1 element but `sources` has 2 entries (with
the duplicate id "x" visible on both), because the code maps over
`rerankedResults`, not `uniqueResults`. -/
theorem claim_c9_counterexample :
    (executeRag envDupIds { query := "" }).1.sources.length = 2 ∧
    ((executeRag envDupIds { query := "" }).1.sources.map
      (fun s => s.metadata.id)) = [some "x", some "x"] ∧
    (uniqueResults (rerankedOf envDupIds { query := "" } [dupA, dupB])).length
      = 1 := by
  refine ⟨?_, ?_, ?_⟩ <;> decide

unseal Rat.ofScientific in
/-- C9 witness: the amended theorem applied to the duplicate-id
environment, every hypothesis discharged there. -/
theorem claim_c9_amended_sources_positional_witness :
    (executeRag envDupIds { query := "" }).1.sources =
      sourcesOf (rerankedOf envDupIds { query := "" } [dupA, dupB]) 2 :=
  (claim_c9_amended_sources_positional envDupIds { query := "" } [dupA, dupB]
    rfl rfl rfl false [] [dupA, dupB] false (by rfl) (by rfl)).1

end RagPipeline
